import Mathlib

/-!
Verification development for the email validation core in
`src/rust-wasm/src/lib.rs` (functions `score_domain` and
`parse_and_validate_email`).

The Rust regex literal is embedded as a `Regex` syntax tree together with a
standard Brzozowski-derivative matcher (`matchR`); since the Rust pattern is
anchored with `^`/`$`, `Regex::is_match` on it coincides with full-string
matching, which is what `matchR` computes.  Rust `str` values are modelled by
Lean `String` (both are sequences of Unicode scalar values); Rust
`str::len` (UTF-8 byte count) is modelled by `utf8Len`; the `f64` domain
scores (80.0 / 20.0 / 50.0, no arithmetic is ever performed on them) are
modelled by the corresponding naturals.
-/

/-- Regular expressions over `Char`, with character classes given by their
characteristic (boolean) predicate. -/
inductive Regex where
  | emp
  | eps
  | cls (p : Char → Bool)
  | cat (r₁ r₂ : Regex)
  | alt (r₁ r₂ : Regex)
  | star (r : Regex)

/-- Does the regex accept the empty string? -/
def nullable : Regex → Bool
  | .emp => false
  | .eps => true
  | .cls _ => false
  | .cat r₁ r₂ => nullable r₁ && nullable r₂
  | .alt r₁ r₂ => nullable r₁ || nullable r₂
  | .star _ => true

/-- Alternation, collapsing the empty language (keeps derivatives small). -/
def altS (r₁ r₂ : Regex) : Regex :=
  match r₁, r₂ with
  | .emp, r₂ => r₂
  | r₁, .emp => r₁
  | r₁, r₂ => .alt r₁ r₂

/-- Concatenation, collapsing the empty language and the empty string
(keeps derivatives small). -/
def catS (r₁ r₂ : Regex) : Regex :=
  match r₁, r₂ with
  | .emp, _ => .emp
  | _, .emp => .emp
  | .eps, r₂ => r₂
  | r₁, .eps => r₁
  | r₁, r₂ => .cat r₁ r₂

/-- Brzozowski derivative of a regex with respect to one character. -/
def derivC (r : Regex) (c : Char) : Regex :=
  match r with
  | .emp => .emp
  | .eps => .emp
  | .cls p => if p c then .eps else .emp
  | .cat r₁ r₂ =>
      if nullable r₁ then altS (catS (derivC r₁ c) r₂) (derivC r₂ c)
      else catS (derivC r₁ c) r₂
  | .alt r₁ r₂ => altS (derivC r₁ c) (derivC r₂ c)
  | .star r => catS (derivC r c) (.star r)

/-- Full-string regex matching by iterated derivatives. -/
def matchR (r : Regex) (s : List Char) : Bool :=
  nullable (s.foldl derivC r)

/-- The language denoted by a regex, as an inductive predicate. -/
inductive Lang : Regex → List Char → Prop where
  | eps : Lang .eps []
  | cls {p : Char → Bool} {c : Char} : p c = true → Lang (.cls p) [c]
  | catI {r₁ r₂ : Regex} {s₁ s₂ : List Char} :
      Lang r₁ s₁ → Lang r₂ s₂ → Lang (.cat r₁ r₂) (s₁ ++ s₂)
  | altL {r₁ r₂ : Regex} {s : List Char} : Lang r₁ s → Lang (.alt r₁ r₂) s
  | altR {r₁ r₂ : Regex} {s : List Char} : Lang r₂ s → Lang (.alt r₁ r₂) s
  | starNil {r : Regex} : Lang (.star r) []
  | starCons {r : Regex} {s₁ s₂ : List Char} :
      Lang r s₁ → Lang (.star r) s₂ → Lang (.star r) (s₁ ++ s₂)

/- ### The character classes of the Rust pattern
`^[a-zA-Z0-9_%+-](?:[a-zA-Z0-9._%+-]*[a-zA-Z0-9_%+-])?@[a-zA-Z0-9](?:[a-zA-Z0-9-]*[a-zA-Z0-9])?(?:\.[a-zA-Z0-9](?:[a-zA-Z0-9-]*[a-zA-Z0-9])?)*\.[a-zA-Z]{2,}$` -/

/-- `[a-zA-Z]` -/
def isAsciiLetter (c : Char) : Bool :=
  ('a' ≤ c && c ≤ 'z') || ('A' ≤ c && c ≤ 'Z')

/-- `[a-zA-Z0-9]` -/
def isAlnum (c : Char) : Bool :=
  isAsciiLetter c || ('0' ≤ c && c ≤ '9')

/-- `[a-zA-Z0-9_%+-]` -/
def isWordChar (c : Char) : Bool :=
  isAlnum c || c == '_' || c == '%' || c == '+' || c == '-'

/-- `[a-zA-Z0-9._%+-]` -/
def isBodyChar (c : Char) : Bool :=
  isWordChar c || c == '.'

/-- `[a-zA-Z0-9-]` -/
def isAlnumHyphen (c : Char) : Bool :=
  isAlnum c || c == '-'

/-- A single literal character. -/
def chr (c : Char) : Regex := .cls (fun x => x == c)

/-- `(?: r )?` -/
def opt (r : Regex) : Regex := .alt .eps r

/-- `[a-zA-Z0-9_%+-](?:[a-zA-Z0-9._%+-]*[a-zA-Z0-9_%+-])?` — the local part. -/
def localRe : Regex :=
  .cat (.cls isWordChar) (opt (.cat (.star (.cls isBodyChar)) (.cls isWordChar)))

/-- `[a-zA-Z0-9](?:[a-zA-Z0-9-]*[a-zA-Z0-9])?` — one domain label. -/
def labelRe : Regex :=
  .cat (.cls isAlnum) (opt (.cat (.star (.cls isAlnumHyphen)) (.cls isAlnum)))

/-- `[a-zA-Z]{2,}` — the final label (TLD). -/
def tldRe : Regex :=
  .cat (.cls isAsciiLetter) (.cat (.cls isAsciiLetter) (.star (.cls isAsciiLetter)))

/-- `[a-zA-Z0-9](?:[a-zA-Z0-9-]*[a-zA-Z0-9])?(?:\.[a-zA-Z0-9](?:[a-zA-Z0-9-]*[a-zA-Z0-9])?)*\.[a-zA-Z]{2,}` — the domain part. -/
def domainRe : Regex :=
  .cat labelRe (.cat (.star (.cat (chr '.') labelRe)) (.cat (chr '.') tldRe))

/-- The full anchored pattern from `parse_and_validate_email`. -/
def emailRegex : Regex :=
  .cat localRe (.cat (chr '@') domainRe)

/- ### String helpers mirroring the Rust standard library -/

/-- Rust `str::len`: the UTF-8 byte length of the string. -/
def utf8Len (s : List Char) : Nat :=
  s.foldl (fun n c => n + c.utf8Size) 0

/-- Rust `email.split('@').collect::<Vec<_>>()`: split on every occurrence
of the separator; `n` separators yield `n + 1` (possibly empty) pieces. -/
def splitOnChar (sep : Char) : List Char → List (List Char)
  | [] => [[]]
  | c :: cs =>
      if c = sep then [] :: splitOnChar sep cs
      else
        match splitOnChar sep cs with
        | [] => [[c]]
        | p :: ps => (c :: p) :: ps

/-- Rust `local_part.contains("..")`: two adjacent dots occur somewhere. -/
def containsDotDot : List Char → Bool
  | '.' :: '.' :: _ => true
  | _ :: cs => containsDotDot cs
  | [] => false

/- ### The data model of `lib.rs` -/

/-- Result of email parsing and validation (struct `EmailParseResult`);
`domain_score` holds the `f64` score, which is always one of the exact
naturals 20, 50, 80. -/
structure EmailParseResult where
  is_valid : Bool
  local_part : Option String
  domain : Option String
  domain_score : Option Nat
  error_message : Option String
  deriving Repr, DecidableEq

/-- Error structure for email parsing failures (struct `EmailParseError`). -/
structure EmailParseError where
  error_type : String
  message : String
  details : Option String
  deriving Repr, DecidableEq

/-- Rust `char::to_lowercase` restricted to ASCII, which is `Char.toLower`;
the two agree on every ASCII string (the only domain strings occurring in
the fixed tables and in the claims). -/
def strToLower (s : String) : String :=
  String.mk (s.data.map Char.toLower)

/-- `score_domain` from `lib.rs`: trusted domains score 80, disposable
domains 20, everything else 50, after lowercasing. -/
def score_domain (domain : String) : Nat :=
  let domain_lower := strToLower domain
  let trusted_domains := ["google.com", "outlook.com", "yahoo.com"]
  let disposable_domains := ["mailinator.com", "tempmail.com"]
  if trusted_domains.contains domain_lower then 80
  else if disposable_domains.contains domain_lower then 20
  else 50

/-- `parse_and_validate_email` from `lib.rs`.  The `Regex::new` call on the
fixed pattern is modelled by `Except.ok emailRegex` (compiling a constant
valid pattern cannot fail); the `Err` arm is kept to mirror the source
structure.  The `parts.len() != 2` check followed by indexing `parts[0]`,
`parts[1]` is rendered as a match on the two-element list pattern. -/
def parse_and_validate_email (email : String) : Except EmailParseError EmailParseResult :=
  if email.data.isEmpty then
    .ok { is_valid := false, local_part := none, domain := none,
          domain_score := none, error_message := some "Email cannot be empty" }
  else if utf8Len email.data > 320 then
    .ok { is_valid := false, local_part := none, domain := none,
          domain_score := none,
          error_message := some "Email exceeds maximum length of 320 characters" }
  else
    match (Except.ok emailRegex : Except String Regex) with
    | .error e =>
        .error { error_type := "RegexError",
                 message := "Failed to compile email regex", details := some e }
    | .ok email_regex =>
      if !(matchR email_regex email.data) then
        .ok { is_valid := false, local_part := none, domain := none,
              domain_score := none, error_message := some "Invalid email format" }
      else
        match splitOnChar '@' email.data with
        | [lp, dm] =>
            if containsDotDot lp then
              .ok { is_valid := false, local_part := none, domain := none,
                    domain_score := none, error_message := some "Invalid email format" }
            else
              .ok { is_valid := true, local_part := some (String.mk lp),
                    domain := some (String.mk dm),
                    domain_score := some (score_domain (String.mk dm)),
                    error_message := none }
        | _ =>
            .ok { is_valid := false, local_part := none, domain := none,
                  domain_score := none, error_message := some "Invalid email format" }

set_option maxRecDepth 10000

instance {e a : Type} [DecidableEq e] [DecidableEq a] : DecidableEq (Except e a) :=
  fun x y =>
    match x, y with
    | .ok u, .ok v => decidable_of_iff (u = v) (by simp)
    | .error u, .error v => decidable_of_iff (u = v) (by simp)
    | .ok _, .error _ => .isFalse (by simp)
    | .error _, .ok _ => .isFalse (by simp)

/-- The shared "Invalid email format" result value. -/
def invalidFmtRes : EmailParseResult :=
  { is_valid := false, local_part := none, domain := none,
    domain_score := none, error_message := some "Invalid email format" }

/- ### Soundness of the derivative matcher with respect to `Lang` -/

theorem altS_lang {r₁ r₂ : Regex} {s : List Char} (h : Lang (altS r₁ r₂) s) :
    Lang (.alt r₁ r₂) s := by
  unfold altS at h
  split at h
  · exact .altR h
  · exact .altL h
  · exact h

theorem catS_lang {r₁ r₂ : Regex} {s : List Char} (h : Lang (catS r₁ r₂) s) :
    Lang (.cat r₁ r₂) s := by
  unfold catS at h
  split at h
  · cases h
  · cases h
  · exact Lang.catI Lang.eps h
  · have h2 := Lang.catI h Lang.eps
    rwa [List.append_nil] at h2
  · exact h

theorem nullable_sound : ∀ {r : Regex}, nullable r = true → Lang r []
  | .eps, _ => .eps
  | .cat r₁ r₂, h => by
      rw [nullable, Bool.and_eq_true] at h
      exact Lang.catI (nullable_sound h.1) (nullable_sound h.2)
  | .alt r₁ r₂, h => by
      rw [nullable, Bool.or_eq_true] at h
      cases h with
      | inl h => exact .altL (nullable_sound h)
      | inr h => exact .altR (nullable_sound h)
  | .star _, _ => .starNil

theorem derivC_sound : ∀ {r : Regex} {c : Char} {s : List Char},
    Lang (derivC r c) s → Lang r (c :: s) := by
  intro r
  induction r with
  | emp => intro c s h; rw [derivC] at h; cases h
  | eps => intro c s h; rw [derivC] at h; cases h
  | cls p =>
      intro c s h
      rw [derivC] at h
      split at h
      next hpc => cases h; exact Lang.cls hpc
      next hpc => cases h
  | cat r₁ r₂ ih₁ ih₂ =>
      intro c s h
      rw [derivC] at h
      split at h
      next hn =>
        cases altS_lang h with
        | altL h4 =>
            cases catS_lang h4 with
            | catI h₁ h₂ => exact Lang.catI (ih₁ h₁) h₂
        | altR h4 => exact Lang.catI (nullable_sound hn) (ih₂ h4)
      next hn =>
        cases catS_lang h with
        | catI h₁ h₂ => exact Lang.catI (ih₁ h₁) h₂
  | alt r₁ r₂ ih₁ ih₂ =>
      intro c s h
      rw [derivC] at h
      cases altS_lang h with
      | altL h4 => exact .altL (ih₁ h4)
      | altR h4 => exact .altR (ih₂ h4)
  | star r ih =>
      intro c s h
      rw [derivC] at h
      cases catS_lang h with
      | catI h₁ h₂ => exact Lang.starCons (ih h₁) h₂

theorem matchR_sound : ∀ (s : List Char) (r : Regex), matchR r s = true → Lang r s
  | [], _, h => nullable_sound h
  | c :: cs, r, h => derivC_sound (matchR_sound cs (derivC r c) h)

/- ### Properties of `splitOnChar` -/

theorem splitOnChar_ne_nil (sep : Char) : ∀ s : List Char, splitOnChar sep s ≠ [] := by
  intro s
  induction s with
  | nil => simp [splitOnChar]
  | cons c cs ih =>
      rw [splitOnChar]
      split
      · simp
      · split
        · simp
        · simp

theorem splitOnChar_length (sep : Char) :
    ∀ s : List Char, (splitOnChar sep s).length = s.count sep + 1 := by
  intro s
  induction s with
  | nil => simp [splitOnChar]
  | cons c cs ih =>
      rw [splitOnChar]
      split
      next hc =>
        subst hc
        simp [List.count_cons, ih]
      next hc =>
        cases heq : splitOnChar sep cs with
        | nil => exact absurd heq (splitOnChar_ne_nil sep cs)
        | cons p ps =>
            rw [heq] at ih
            simp only [List.length_cons] at ih ⊢
            rw [List.count_cons]
            simp [hc, ih]

theorem splitOnChar_single (sep : Char) :
    ∀ s d : List Char, splitOnChar sep s = [d] → s = d ∧ sep ∉ d := by
  intro s
  induction s with
  | nil =>
      intro d h
      rw [splitOnChar] at h
      cases h
      simp
  | cons c cs ih =>
      intro d h
      rw [splitOnChar] at h
      split at h
      next hc =>
        rw [List.cons.injEq] at h
        exact absurd h.2 (splitOnChar_ne_nil sep cs)
      next hc =>
        cases heq : splitOnChar sep cs with
        | nil => exact absurd heq (splitOnChar_ne_nil sep cs)
        | cons p ps =>
            rw [heq, List.cons.injEq] at h
            obtain ⟨hd, hps⟩ := h
            subst hd
            subst hps
            obtain ⟨h1, h2⟩ := ih p heq
            subst h1
            refine ⟨rfl, ?_⟩
            intro hm
            cases hm with
            | head => exact hc rfl
            | tail _ hm => exact h2 hm

theorem splitOnChar_pair (sep : Char) :
    ∀ s l d : List Char, splitOnChar sep s = [l, d] →
      s = l ++ sep :: d ∧ sep ∉ l ∧ sep ∉ d := by
  intro s
  induction s with
  | nil =>
      intro l d h
      rw [splitOnChar] at h
      cases h
  | cons c cs ih =>
      intro l d h
      rw [splitOnChar] at h
      split at h
      next hc =>
        subst hc
        rw [List.cons.injEq] at h
        obtain ⟨hl, hcs⟩ := h
        subst hl
        obtain ⟨h1, h2⟩ := splitOnChar_single c cs d hcs
        subst h1
        simp [h2]
      next hc =>
        cases heq : splitOnChar sep cs with
        | nil => exact absurd heq (splitOnChar_ne_nil sep cs)
        | cons p ps =>
            rw [heq, List.cons.injEq] at h
            obtain ⟨hl, hps⟩ := h
            subst hl
            subst hps
            obtain ⟨h1, h2, h3⟩ := ih p d heq
            subst h1
            refine ⟨rfl, ?_, h3⟩
            intro hm
            cases hm with
            | head => exact hc rfl
            | tail _ hm => exact h2 hm

/- ### Characters avoided by a regex -/

/-- `avoidsChar r c = true` when no character class of `r` accepts `c`,
so no string in the language of `r` contains `c`. -/
def avoidsChar : Regex → Char → Bool
  | .emp, _ => true
  | .eps, _ => true
  | .cls p, c => !(p c)
  | .cat r₁ r₂, c => avoidsChar r₁ c && avoidsChar r₂ c
  | .alt r₁ r₂, c => avoidsChar r₁ c && avoidsChar r₂ c
  | .star r, c => avoidsChar r c

theorem avoidsChar_sound {c : Char} :
    ∀ {r : Regex} {s : List Char}, Lang r s → avoidsChar r c = true → c ∉ s := by
  intro r s h
  induction h with
  | eps => intro _ hm; cases hm
  | cls hp =>
      intro hav hm
      rw [avoidsChar, Bool.not_eq_true'] at hav
      rw [List.mem_singleton] at hm
      subst hm
      rw [hp] at hav
      exact absurd hav (by simp)
  | catI h₁ h₂ ih₁ ih₂ =>
      intro hav hm
      rw [avoidsChar, Bool.and_eq_true] at hav
      rcases List.mem_append.mp hm with hm | hm
      · exact ih₁ hav.1 hm
      · exact ih₂ hav.2 hm
  | altL h ih =>
      intro hav
      rw [avoidsChar, Bool.and_eq_true] at hav
      exact ih hav.1
  | altR h ih =>
      intro hav
      rw [avoidsChar, Bool.and_eq_true] at hav
      exact ih hav.2
  | starNil => intro _ hm; cases hm
  | starCons h₁ h₂ ih₁ ih₂ =>
      intro hav hm
      rw [avoidsChar] at hav
      rcases List.mem_append.mp hm with hm | hm
      · exact ih₁ hav hm
      · exact ih₂ (by rw [avoidsChar]; exact hav) hm

/-- Every string in the language of the email pattern contains exactly one
`@`: the local and domain sub-patterns avoid `@`, and the pattern has one
literal `@` between them. -/
theorem lang_emailRegex_count_at {s : List Char} (h : Lang emailRegex s) :
    s.count '@' = 1 := by
  rw [emailRegex] at h
  cases h with
  | catI h₁ h₂ =>
      cases h₂ with
      | catI ha hd =>
          have h1 : '@' ∉ _ := avoidsChar_sound h₁ (by decide)
          have h3 : '@' ∉ _ := avoidsChar_sound hd (by decide)
          cases ha with
          | cls hp =>
              rw [beq_iff_eq] at hp
              subst hp
              simp [List.count_append, List.count_cons,
                    List.count_eq_zero.mpr h1, List.count_eq_zero.mpr h3]

/- ### Helpers for reasoning about `parse_and_validate_email` -/

theorem string_eq_of_data {a b : String} (h : a.data = b.data) : a = b := by
  cases a
  cases b
  cases h
  rfl

/-- The "Email cannot be empty" result value. -/
def emptyRes : EmailParseResult :=
  { is_valid := false, local_part := none, domain := none,
    domain_score := none, error_message := some "Email cannot be empty" }

/-- The "Email exceeds maximum length of 320 characters" result value. -/
def lenRes : EmailParseResult :=
  { is_valid := false, local_part := none, domain := none,
    domain_score := none,
    error_message := some "Email exceeds maximum length of 320 characters" }

/-- The successful result for local part `lp` and domain `dm`. -/
def validRes (lp dm : List Char) : EmailParseResult :=
  { is_valid := true, local_part := some (String.mk lp),
    domain := some (String.mk dm),
    domain_score := some (score_domain (String.mk dm)), error_message := none }

/-- `parse_and_validate_email` with the (always successful) pattern
compilation reduced away; holds by `rfl`. -/
theorem parse_unfold (email : String) :
    parse_and_validate_email email =
      (if email.data.isEmpty then .ok emptyRes
       else if utf8Len email.data > 320 then .ok lenRes
       else if !(matchR emailRegex email.data) then .ok invalidFmtRes
       else
         match splitOnChar '@' email.data with
         | [lp, dm] =>
             if containsDotDot lp then .ok invalidFmtRes else .ok (validRes lp dm)
         | _ => .ok invalidFmtRes) := rfl

/- ### The claims -/

/-- Claim C6: `parse_and_validate_email` is total over its success channel:
every input yields `Except.ok` with an `EmailParseResult`; the
`EmailParseError` channel (reserved for the regex-compilation failure,
impossible for the fixed valid pattern) is never used. -/
theorem parse_total (s : String) :
    ∃ r : EmailParseResult, parse_and_validate_email s = Except.ok r := by
  unfold parse_and_validate_email
  repeat' split
  all_goals first
    | exact ⟨_, rfl⟩
    | (rename_i heq; cases heq)

/-- Claim C1: every result of `parse_and_validate_email` satisfies the
mutual-exclusivity invariant: `is_valid = true` iff `local_part`, `domain`
and `domain_score` are all present and `error_message` is absent, and when
`is_valid = false` the three fields are absent and `error_message` present;
no result is partially populated. -/
theorem parse_mutual_exclusivity (s : String) (r : EmailParseResult)
    (h : parse_and_validate_email s = Except.ok r) :
    (r.is_valid = true ↔
      (r.local_part.isSome = true ∧ r.domain.isSome = true ∧
       r.domain_score.isSome = true ∧ r.error_message = none)) ∧
    (r.is_valid = false →
      (r.local_part = none ∧ r.domain = none ∧ r.domain_score = none ∧
       r.error_message.isSome = true)) := by
  unfold parse_and_validate_email at h
  repeat' split at h
  all_goals first
    | (cases h; simp)
    | (rename_i heq; cases heq)

/-- The successful parse of `"a@b.co"`, used to instantiate hypotheses of
the universally quantified theorems. -/
def resAB : EmailParseResult :=
  { is_valid := true, local_part := some "a", domain := some "b.co",
    domain_score := some 50, error_message := none }

theorem parse_mutual_exclusivity_witness :
    (resAB.is_valid = true ↔
      (resAB.local_part.isSome = true ∧ resAB.domain.isSome = true ∧
       resAB.domain_score.isSome = true ∧ resAB.error_message = none)) ∧
    (resAB.is_valid = false →
      (resAB.local_part = none ∧ resAB.domain = none ∧ resAB.domain_score = none ∧
       resAB.error_message.isSome = true)) :=
  parse_mutual_exclusivity "a@b.co" resAB (by decide)

/-- Claim C2: each of the eleven malformed inputs is rejected with
`is_valid = false` and message "Invalid email format". -/
theorem malformed_rejection_set :
    parse_and_validate_email "test2.com" = Except.ok invalidFmtRes ∧
    parse_and_validate_email "@domain.com" = Except.ok invalidFmtRes ∧
    parse_and_validate_email "test@" = Except.ok invalidFmtRes ∧
    parse_and_validate_email "test@@domain.com" = Except.ok invalidFmtRes ∧
    parse_and_validate_email "test@domain" = Except.ok invalidFmtRes ∧
    parse_and_validate_email "test@domain." = Except.ok invalidFmtRes ∧
    parse_and_validate_email "test@.domain.com" = Except.ok invalidFmtRes ∧
    parse_and_validate_email "test@domain..com" = Except.ok invalidFmtRes ∧
    parse_and_validate_email ".test@domain.com" = Except.ok invalidFmtRes ∧
    parse_and_validate_email "test.@domain.com" = Except.ok invalidFmtRes ∧
    parse_and_validate_email "te..st@domain.com" = Except.ok invalidFmtRes := by
  refine ⟨?_, ?_, ?_, ?_, ?_, ?_, ?_, ?_, ?_, ?_, ?_⟩ <;> decide

/-- Claim C3: the canonical valid case `"test@example.com"`: valid, local
part `"test"`, domain `"example.com"`, score 50, no error message. -/
theorem canonical_valid_case :
    parse_and_validate_email "test@example.com" =
      Except.ok { is_valid := true, local_part := some "test",
                  domain := some "example.com", domain_score := some 50,
                  error_message := none } := by decide

/-- Claim C4: `score_domain` lowercases its argument and returns 80 for the
trusted set, 20 for the disposable set, 50 otherwise; the score is always
one of 20, 50, 80 (hence within 0–100), and scoring is case-insensitive:
`validate("user@MAILINATOR.COM")` yields `domain_score = 20`. -/
theorem score_domain_spec :
    (∀ d : String,
      score_domain d =
        (if strToLower d = "google.com" ∨ strToLower d = "outlook.com" ∨
            strToLower d = "yahoo.com" then 80
         else if strToLower d = "mailinator.com" ∨ strToLower d = "tempmail.com" then 20
         else 50)) ∧
    (∀ d : String, score_domain d = 20 ∨ score_domain d = 50 ∨ score_domain d = 80) ∧
    (∀ d : String, score_domain d ≤ 100) ∧
    score_domain "MAILINATOR.COM" = 20 ∧
    parse_and_validate_email "user@MAILINATOR.COM" =
      Except.ok { is_valid := true, local_part := some "user",
                  domain := some "MAILINATOR.COM", domain_score := some 20,
                  error_message := none } := by
  have key : ∀ d : String,
      score_domain d =
        (if strToLower d = "google.com" ∨ strToLower d = "outlook.com" ∨
            strToLower d = "yahoo.com" then 80
         else if strToLower d = "mailinator.com" ∨ strToLower d = "tempmail.com" then 20
         else 50) := by
    intro d
    simp only [score_domain]
    have hT : (["google.com", "outlook.com", "yahoo.com"].contains (strToLower d) = true) ↔
        (strToLower d = "google.com" ∨ strToLower d = "outlook.com" ∨
         strToLower d = "yahoo.com") := by simp
    have hD : (["mailinator.com", "tempmail.com"].contains (strToLower d) = true) ↔
        (strToLower d = "mailinator.com" ∨ strToLower d = "tempmail.com") := by simp
    exact if_congr hT rfl (if_congr hD rfl rfl)
  refine ⟨key, ?_, ?_, by decide, by decide⟩
  · intro d
    rw [key d]
    split
    · right; right; rfl
    · split
      · left; rfl
      · right; left; rfl
  · intro d
    rw [key d]
    split
    · omega
    · split
      · omega
      · omega

/-- 161 copies of the two-byte character `é`: 161 characters, 322 bytes. -/
def longE : String := String.mk (List.replicate 161 'é')

/-- A 309-character all-`a` local part. -/
def local309 : String := String.mk (List.replicate 309 'a')

/-- A well-formed address of exactly 320 characters (= 320 bytes). -/
def email320 : String := String.mk (List.replicate 309 'a' ++ "@domain.com".data)

/-- Claim C5 is false as stated: `longE` is a non-empty input of 161
characters (at most 320), yet `parse_and_validate_email` returns the
length message, because the code measures `email.len()` in UTF-8 bytes
(here 322). -/
theorem length_unit_counterexample :
    longE ≠ "" ∧ longE.data.length = 161 ∧
    parse_and_validate_email longE = Except.ok lenRes ∧
    lenRes.error_message = some "Email exceeds maximum length of 320 characters" := by
  decide

/-- Claim C5 (amended): the length bound is measured in UTF-8 bytes: no
non-empty input of at most 320 bytes ever gets the length message; every
input of more than 320 bytes is rejected with exactly that message; and a
320-character (all-ASCII, hence 320-byte) well-formed address is
accepted. -/
theorem length_bound_bytes :
    (∀ (s : String) (r : EmailParseResult), s ≠ "" → utf8Len s.data ≤ 320 →
      parse_and_validate_email s = Except.ok r →
      r.error_message ≠ some "Email exceeds maximum length of 320 characters") ∧
    (∀ s : String, utf8Len s.data > 320 →
      parse_and_validate_email s = Except.ok lenRes) ∧
    (email320.data.length = 320 ∧ utf8Len email320.data = 320 ∧
     parse_and_validate_email email320 =
       Except.ok { is_valid := true, local_part := some local309,
                   domain := some "domain.com", domain_score := some 50,
                   error_message := none }) := by
  refine ⟨?_, ?_, by decide⟩
  · intro s r hne hlen h
    have hcond : ¬ s.data.isEmpty = true := fun h0 =>
      hne (string_eq_of_data (by simpa using h0))
    have hlen2 : ¬ utf8Len s.data > 320 := by omega
    rw [parse_unfold, if_neg hcond, if_neg hlen2] at h
    repeat' split at h
    all_goals cases h
    all_goals first | decide | simp [validRes]
  · intro s hlen
    have hcond : ¬ s.data.isEmpty = true := by
      intro h0
      have hd : s.data = [] := by simpa using h0
      rw [hd] at hlen
      simp [utf8Len] at hlen
    rw [parse_unfold, if_neg hcond, if_pos hlen]

theorem length_bound_bytes_witness :
    ("x" ≠ "" ∧ utf8Len "x".data ≤ 320 ∧
     invalidFmtRes.error_message ≠ some "Email exceeds maximum length of 320 characters") ∧
    (utf8Len longE.data > 320 ∧ parse_and_validate_email longE = Except.ok lenRes) :=
  ⟨⟨by decide, by decide,
    length_bound_bytes.1 "x" invalidFmtRes (by decide) (by decide) (by decide)⟩,
   ⟨by decide, length_bound_bytes.2.1 longE (by decide)⟩⟩

/-- Claim C7: the consecutive-dot guard is reachable as the sole rejection
reason: `"te..st@domain.com"` passes the emptiness, length, pattern and
single-separator checks (so the pattern alone does not exclude internal
`..` in the local part), and every input in that situation whose local
part contains two adjacent dots is rejected with "Invalid email format". -/
theorem consecutive_dot_guard :
    ("te..st@domain.com" ≠ "" ∧
     utf8Len "te..st@domain.com".data ≤ 320 ∧
     matchR emailRegex "te..st@domain.com".data = true ∧
     splitOnChar '@' "te..st@domain.com".data = ["te..st".data, "domain.com".data] ∧
     containsDotDot "te..st".data = true ∧
     parse_and_validate_email "te..st@domain.com" = Except.ok invalidFmtRes) ∧
    (∀ (s : String) (lp dm : List Char), s ≠ "" → utf8Len s.data ≤ 320 →
      matchR emailRegex s.data = true →
      splitOnChar '@' s.data = [lp, dm] →
      containsDotDot lp = true →
      parse_and_validate_email s = Except.ok invalidFmtRes) := by
  refine ⟨by decide, ?_⟩
  intro s lp dm hne hlen hmatch hsplit hdots
  have hcond : ¬ s.data.isEmpty = true := fun h0 =>
    hne (string_eq_of_data (by simpa using h0))
  have hlen2 : ¬ utf8Len s.data > 320 := by omega
  rw [parse_unfold, if_neg hcond, if_neg hlen2, hmatch, hsplit]
  simp [hdots]

theorem consecutive_dot_guard_witness :
    parse_and_validate_email "te..st@domain.com" = Except.ok invalidFmtRes :=
  consecutive_dot_guard.2 "te..st@domain.com" "te..st".data "domain.com".data
    (by decide) (by decide) (by decide) (by decide) (by decide)

/-- Claim C8: extraction is verbatim: whenever validation succeeds, the
returned local part, `"@"` and the returned domain concatenate back to the
original input exactly, and the local part contains no `@`. -/
theorem parse_valid_extraction (s : String) (r : EmailParseResult)
    (h : parse_and_validate_email s = Except.ok r) (hv : r.is_valid = true) :
    ∃ lp dm : String, r.local_part = some lp ∧ r.domain = some dm ∧
      lp ++ "@" ++ dm = s ∧ '@' ∉ lp.data := by
  rw [parse_unfold] at h
  repeat' split at h
  all_goals cases h
  all_goals try (exact absurd hv (by decide))
  rename_i hsplit _
  obtain ⟨h1, h2, h3⟩ := splitOnChar_pair '@' s.data _ _ hsplit
  refine ⟨_, _, rfl, rfl, ?_, by simpa using h2⟩
  apply string_eq_of_data
  rw [h1]
  show (_ ++ "@".data) ++ _ = _
  rw [List.append_assoc]
  rfl

theorem parse_valid_extraction_witness :
    ∃ lp dm : String, resAB.local_part = some lp ∧ resAB.domain = some dm ∧
      lp ++ "@" ++ dm = "a@b.co" ∧ '@' ∉ lp.data :=
  parse_valid_extraction "a@b.co" resAB (by decide) (by decide)

/-- Claim C9: the defensive single-separator check never fires: every input
matching the anchored pattern contains exactly one `@`, so splitting on `@`
yields exactly two parts and the step-4 rejection branch is unreachable. -/
theorem pattern_single_separator (s : String)
    (h : matchR emailRegex s.data = true) :
    (splitOnChar '@' s.data).length = 2 := by
  have hc := lang_emailRegex_count_at (matchR_sound s.data emailRegex h)
  rw [splitOnChar_length, hc]

theorem pattern_single_separator_witness :
    matchR emailRegex "a@b.co".data = true ∧
    (splitOnChar '@' "a@b.co".data).length = 2 :=
  ⟨by decide, pattern_single_separator "a@b.co" (by decide)⟩

/-- Claim C10: the emptiness check tests exact zero length with no
trimming: no non-empty input ever gets the message "Email cannot be
empty"; whitespace-only inputs are rejected with "Invalid email format"
instead. -/
theorem nonempty_no_empty_message :
    (∀ (s : String) (r : EmailParseResult), s ≠ "" →
      parse_and_validate_email s = Except.ok r →
      r.error_message ≠ some "Email cannot be empty") ∧
    parse_and_validate_email " " = Except.ok invalidFmtRes ∧
    parse_and_validate_email "\t" = Except.ok invalidFmtRes ∧
    parse_and_validate_email "\n" = Except.ok invalidFmtRes := by
  refine ⟨?_, by decide, by decide, by decide⟩
  intro s r hne h
  have hcond : ¬ s.data.isEmpty = true := fun h0 =>
    hne (string_eq_of_data (by simpa using h0))
  rw [parse_unfold, if_neg hcond] at h
  repeat' split at h
  all_goals cases h
  all_goals first | decide | simp [validRes]

theorem nonempty_no_empty_message_witness :
    "x" ≠ "" ∧ invalidFmtRes.error_message ≠ some "Email cannot be empty" :=
  ⟨by decide, nonempty_no_empty_message.1 "x" invalidFmtRes (by decide) (by decide)⟩
